import Mathlib

/-!
Verification of the multi-speaker transcription pipeline in `src/trans.py`.

The script is a linear pipeline: (0) convert an M4A input to WAV when the
lowercased filename ends in ".m4a", (1-3) run diarization and a speech model,
(4-5) slice the audio per diarized segment, write each slice to a scratch file
`temp_{speaker}_{start:.2f}.wav`, transcribe it and delete the scratch file,
(6) sort the collected segments by start time, (7) render one line per segment
and delete the converted WAV file if one was created.

The embedding models the filesystem as a `Finset String` of existing paths,
times as rationals, and the two ML models as parameters: the diarizer's output
is the `List Track` argument and the speech model is an oracle
`String → String` from scratch-file name to raw text.
-/

namespace Trans

attribute [local semireducible] Rat.ofScientific Rat.mul Rat.inv Rat.add Rat.sub

/-- One diarized interval as yielded by `itertracks`: a speaker label together
with start and end times in seconds (`segment.start`, `segment.end`). -/
structure Track where
  speaker : String
  start : ℚ
  stop : ℚ
deriving DecidableEq

/-- One transcribed segment: the dict appended to `segments` in step 5 of the
source (`speaker`, `start`, `end`, stripped `text`). -/
structure Seg where
  speaker : String
  start : ℚ
  stop : ℚ
  text : String
deriving DecidableEq

/-- The character printed for the decimal digit `d % 10`. -/
def digitChar (d : Nat) : Char := Char.ofNat (48 + d % 10)

/-- Fuel-indexed decimal numeral printer, most significant digit first.
Fuel `n + 1` is always enough for the number `n`. -/
def natCharsAux : Nat → Nat → List Char
  | 0, _ => []
  | fuel + 1, n =>
    if n < 10 then [digitChar n] else natCharsAux fuel (n / 10) ++ [digitChar (n % 10)]

/-- Decimal numeral of a natural number, as a character list. -/
def natChars (n : Nat) : List Char := natCharsAux (n + 1) n

/-- Rounding to the nearest integer with ties to even, the rounding CPython
uses when formatting with `:.2f`. -/
def roundHalfEven (q : ℚ) : ℤ :=
  let f : ℤ := q.floor
  let r : ℚ := q - (f : ℚ)
  if r < 1 / 2 then f
  else if 1 / 2 < r then f + 1
  else if f % 2 = 0 then f else f + 1

/-- Digits of a nonnegative rational formatted with two decimal places:
integer part, a dot, then exactly two fractional digits. -/
def fmt2CharsNN (q : ℚ) : List Char :=
  let n := (roundHalfEven (q * 100)).toNat
  natChars (n / 100) ++ '.' :: digitChar (n / 10 % 10) :: [digitChar (n % 10)]

/-- Character list of a rational formatted at two decimal places: a leading
minus sign for negative values, else the digits alone. -/
def fmt2Chars (q : ℚ) : List Char :=
  if q < 0 then '-' :: fmt2CharsNN (-q) else fmt2CharsNN q

/-- Models the Python fixed-point formatting `start_time:.2f` over rationals. -/
def formatFixed2 (q : ℚ) : String := String.mk (fmt2Chars q)

/-- The scratch chunk filename of line 65: `temp_{speaker}_{start:.2f}.wav`. -/
def tempFilename (speaker : String) (start : ℚ) : String :=
  "temp_" ++ speaker ++ "_" ++ formatFixed2 start ++ ".wav"

/-- Models `str.lower` on the underlying character list. -/
def lowerData (s : String) : List Char := s.data.map Char.toLower

/-- Models the test `audio_file.lower().endswith(".m4a")` of line 20. -/
def endsM4aCI (s : String) : Bool := List.isSuffixOf ".m4a".data (lowerData s)

/-- Fuel-indexed model of Python `str.replace`: replaces every non-overlapping
occurrence of `old`, scanning left to right. Fuel `l.length + 1` is always
enough for a nonempty pattern. -/
def replaceAux (old new : List Char) : Nat → List Char → List Char
  | 0, l => l
  | _ + 1, [] => []
  | fuel + 1, c :: cs =>
    if List.isPrefixOf old (c :: cs) then
      new ++ replaceAux old new fuel (List.drop old.length (c :: cs))
    else
      c :: replaceAux old new fuel cs

/-- Models `s.replace(old, new)` of line 22 (case-sensitive, all occurrences). -/
def pyReplace (s old new : String) : String :=
  String.mk (replaceAux old.data new.data (s.data.length + 1) s.data)

/-- Stage 0 of the source (lines 20-26): if the lowercased input path ends in
".m4a", export a WAV file under the name `audio_file.replace(".m4a", ".wav")`
and continue with that path. Returns the working path, the optional converted
path (`wav_file`, `None` otherwise) and the filesystem after the stage. -/
def normalize (audioFile : String) (fs : Finset String) :
    String × Option String × Finset String :=
  if endsM4aCI audioFile then
    (pyReplace audioFile ".m4a" ".wav", some (pyReplace audioFile ".m4a" ".wav"),
      insert (pyReplace audioFile ".m4a" ".wav") fs)
  else
    (audioFile, none, fs)

/-- One iteration of the loop of lines 57-81: export the chunk to the scratch
file, transcribe it through the oracle, strip the text, then remove the
scratch file if it exists. -/
def processTrack (oracle : String → String) (fs : Finset String) (t : Track) :
    Seg × Finset String :=
  let temp := tempFilename t.speaker t.start
  let fsExp := insert temp fs
  (⟨t.speaker, t.start, t.stop, (oracle temp).trim⟩,
    if temp ∈ fsExp then fsExp.erase temp else fsExp)

/-- The whole per-segment loop, in diarizer order, threading the filesystem. -/
def collectSegs (oracle : String → String) :
    List Track → Finset String → List Seg × Finset String
  | [], fs => ([], fs)
  | t :: ts, fs =>
    let p := processTrack oracle fs t
    let rest := collectSegs oracle ts p.2
    (p.1 :: rest.1, rest.2)

/-- The key ordering of line 86: compare segments by their `start` field. -/
def segLE (a b : Seg) : Prop := a.start ≤ b.start

instance : DecidableRel segLE := fun a b => inferInstanceAs (Decidable (a.start ≤ b.start))

instance : IsTotal Seg segLE := ⟨fun a b => le_total a.start b.start⟩

instance : IsTrans Seg segLE := ⟨fun _ _ _ hab hbc => le_trans hab hbc⟩

/-- Models `segments.sort(key=lambda x: x["start"])`: a stable ascending sort
by start time. -/
def sortSegments (l : List Seg) : List Seg := List.insertionSort segLE l

/-- One rendered line of the transcript (lines 93-96). -/
def renderSeg (s : Seg) : String :=
  "Speaker " ++ s.speaker ++ " (" ++ formatFixed2 s.start ++ "s - " ++
    formatFixed2 s.stop ++ "s): " ++ s.text ++ "\n"

/-- The accumulation loop of lines 91-96 building `transcript_str`. -/
def renderTranscript (segs : List Seg) : String :=
  segs.foldl (fun acc s => acc ++ renderSeg s) ""

/-- Observable outcome of one run of the function: the returned transcript,
the sorted segment list it renders, the raw diarizer-order segment list, the
working audio path, the optional converted WAV path, and the final filesystem. -/
structure RunResult where
  transcript : String
  segments : List Seg
  rawSegments : List Seg
  workFile : String
  wavFile : Option String
  fs : Finset String

/-- The function `transcribe_speaker_diarization` of `src/trans.py`, with the
diarizer output and the speech model passed in as data. The final `fs` field
reflects the cleanup of lines 98-99: `if wav_file and os.path.exists(wav_file)`
(a Python string is truthy exactly when nonempty). -/
def transcribe_speaker_diarization (audioFile : String) (tracks : List Track)
    (oracle : String → String) (fs0 : Finset String) : RunResult :=
  let n := normalize audioFile fs0
  let res := collectSegs oracle tracks n.2.2
  let sorted := sortSegments res.1
  { transcript := renderTranscript sorted
    segments := sorted
    rawSegments := res.1
    workFile := n.1
    wavFile := n.2.1
    fs :=
      match n.2.1 with
      | some w => if w ≠ "" ∧ w ∈ res.2 then res.2.erase w else res.2
      | none => res.2 }

/-- Observable behaviour of the `__main__` block (lines 103-112). -/
inductive MainAction where
  | exitWith (msg : String) (code : Nat)
  | runPipeline (audioFile hfToken : String)
deriving DecidableEq

/-- The usage message printed on line 105. -/
def usageMsg : String := "Usage: python transcribe_with_diarization.py <audio_file> <hf_token>"

/-- Models lines 103-111: `sys.argv` includes the program name at index 0, so
fewer than two positional arguments means `len(sys.argv) < 3`. -/
def mainDispatch (argv : List String) : MainAction :=
  if argv.length < 3 then MainAction.exitWith usageMsg 1
  else MainAction.runPipeline (argv.getD 1 "") (argv.getD 2 "")

/-- Each loop iteration leaves the filesystem with the scratch file of that
iteration removed: the export inserts it and the cleanup erases it. -/
theorem processTrack_snd (oracle : String → String) (fs : Finset String) (t : Track) :
    (processTrack oracle fs t).2 = fs.erase (tempFilename t.speaker t.start) := by
  show (if _ ∈ insert _ fs then _ else _) = _
  rw [if_pos (Finset.mem_insert_self _ fs), Finset.erase_insert_eq_erase]

/-- The loop never leaves behind files it did not start with: the filesystem
after the loop is contained in the filesystem before it. -/
theorem collectSegs_snd_subset (oracle : String → String) :
    ∀ (l : List Track) (fs : Finset String), (collectSegs oracle l fs).2 ⊆ fs := by
  intro l
  induction l with
  | nil => intro fs; exact fun x hx => hx
  | cons t ts ih =>
    intro fs
    have hstep : (collectSegs oracle (t :: ts) fs).2 =
        (collectSegs oracle ts (fs.erase (tempFilename t.speaker t.start))).2 := by
      show (collectSegs oracle ts (processTrack oracle fs t).2).2 = _
      rw [processTrack_snd]
    rw [hstep]
    exact (ih _).trans (Finset.erase_subset _ fs)

/-- After the loop, the scratch file of every processed track is absent. -/
theorem collectSegs_temp_not_mem (oracle : String → String) :
    ∀ (l : List Track) (fs : Finset String) (t : Track), t ∈ l →
      tempFilename t.speaker t.start ∉ (collectSegs oracle l fs).2 := by
  intro l
  induction l with
  | nil => intro fs t ht; simp at ht
  | cons a ts ih =>
    intro fs t ht
    have hstep : (collectSegs oracle (a :: ts) fs).2 =
        (collectSegs oracle ts (fs.erase (tempFilename a.speaker a.start))).2 := by
      show (collectSegs oracle ts (processTrack oracle fs a).2).2 = _
      rw [processTrack_snd]
    rcases List.mem_cons.mp ht with h | h
    · subst h
      rw [hstep]
      intro hmem
      exact Finset.not_mem_erase _ fs (collectSegs_snd_subset oracle ts _ hmem)
    · rw [hstep]
      exact ih _ t h

/-- The final cleanup of the converted WAV file only shrinks the filesystem. -/
theorem final_fs_subset (audioFile : String) (tracks : List Track)
    (oracle : String → String) (fs0 : Finset String) :
    (transcribe_speaker_diarization audioFile tracks oracle fs0).fs ⊆
      (collectSegs oracle tracks (normalize audioFile fs0).2.2).2 := by
  show (match (normalize audioFile fs0).2.1 with
    | some w =>
      if w ≠ "" ∧ w ∈ (collectSegs oracle tracks (normalize audioFile fs0).2.2).2 then
        ((collectSegs oracle tracks (normalize audioFile fs0).2.2).2).erase w
      else (collectSegs oracle tracks (normalize audioFile fs0).2.2).2
    | none => (collectSegs oracle tracks (normalize audioFile fs0).2.2).2) ⊆ _
  cases (normalize audioFile fs0).2.1 with
  | none => exact fun x hx => hx
  | some w =>
    dsimp only
    by_cases hw : w ≠ "" ∧ w ∈ (collectSegs oracle tracks (normalize audioFile fs0).2.2).2
    · rw [if_pos hw]
      exact Finset.erase_subset _ _
    · rw [if_neg hw]

/-- Stability of the sort of line 86, phrased through `filter`: the segments
whose start time equals any fixed value keep their relative order. -/
theorem filter_start_sortSegments (l : List Seg) (t : ℚ) :
    (sortSegments l).filter (fun s => decide (s.start = t)) =
      l.filter (fun s => decide (s.start = t)) := by
  have hall : ∀ s ∈ l.filter (fun s => decide (s.start = t)), s.start = t := by
    intro s hs
    simpa using (List.mem_filter.mp hs).2
  have hpw : (l.filter (fun s => decide (s.start = t))).Pairwise segLE := by
    apply List.pairwise_of_forall_mem_list
    intro a ha b hb
    show a.start ≤ b.start
    rw [hall a ha, hall b hb]
  have hsub : List.Sublist (l.filter (fun s => decide (s.start = t))) (sortSegments l) :=
    List.sublist_insertionSort hpw (List.filter_sublist l)
  have hsub2 := hsub.filter (fun s => decide (s.start = t))
  rw [List.filter_eq_self.mpr (fun a ha => (List.mem_filter.mp ha).2)] at hsub2
  have hlen : ((sortSegments l).filter (fun s => decide (s.start = t))).length =
      (l.filter (fun s => decide (s.start = t))).length :=
    ((List.perm_insertionSort segLE l).filter _).length_eq
  exact (hsub2.eq_of_length hlen.symm).symm

/-- The digit characters are never an underscore. -/
theorem digitChar_ne_underscore (d : Nat) : digitChar d ≠ '_' := by
  unfold digitChar
  have h : d % 10 < 10 := Nat.mod_lt _ (by norm_num)
  set e := d % 10 with he
  interval_cases e <;> decide

/-- Every character the numeral printer emits is a digit character. -/
theorem mem_natCharsAux (fuel : Nat) :
    ∀ (n : Nat) (c : Char), c ∈ natCharsAux fuel n → ∃ d, c = digitChar d := by
  induction fuel with
  | zero => intro n c hc; simp [natCharsAux] at hc
  | succ fuel ih =>
    intro n c hc
    unfold natCharsAux at hc
    by_cases h : n < 10
    · rw [if_pos h] at hc
      simp at hc
      exact ⟨n, hc⟩
    · rw [if_neg h] at hc
      rcases List.mem_append.mp hc with h1 | h1
      · exact ih _ _ h1
      · simp at h1
        exact ⟨n % 10, h1⟩

/-- The numeral printer never emits an underscore. -/
theorem underscore_not_mem_natChars (n : Nat) : '_' ∉ natChars n := by
  intro h
  obtain ⟨d, hd⟩ := mem_natCharsAux _ _ _ h
  exact digitChar_ne_underscore d hd.symm

/-- The two-decimal digits of a nonnegative rational contain no underscore. -/
theorem underscore_not_mem_fmt2CharsNN (q : ℚ) : '_' ∉ fmt2CharsNN q := by
  intro h
  simp only [fmt2CharsNN] at h
  rcases List.mem_append.mp h with h1 | h2
  · exact underscore_not_mem_natChars _ h1
  · rcases List.mem_cons.mp h2 with h3 | h4
    · exact absurd h3 (by decide)
    · rcases List.mem_cons.mp h4 with h5 | h6
      · exact digitChar_ne_underscore _ h5.symm
      · rcases List.mem_cons.mp h6 with h7 | h8
        · exact digitChar_ne_underscore _ h7.symm
        · simp at h8

/-- The formatted start time contains no underscore character. -/
theorem underscore_not_mem_fmt2Chars (q : ℚ) : '_' ∉ fmt2Chars q := by
  intro h
  unfold fmt2Chars at h
  by_cases hq : q < 0
  · rw [if_pos hq] at h
    rcases List.mem_cons.mp h with h1 | h2
    · exact absurd h1 (by decide)
    · exact underscore_not_mem_fmt2CharsNN _ h2
  · rw [if_neg hq] at h
    exact underscore_not_mem_fmt2CharsNN _ h

/-- Splitting at an underscore is unambiguous when the right parts are free of
underscores. -/
theorem append_cons_underscore_inj :
    ∀ (a : List Char) {b f g : List Char}, '_' ∉ f → '_' ∉ g →
      a ++ '_' :: f = b ++ '_' :: g → a = b ∧ f = g := by
  intro a
  induction a with
  | nil =>
    intro b f g hf hg h
    cases b with
    | nil =>
      simp at h
      exact ⟨rfl, h⟩
    | cons y ys =>
      simp at h
      exfalso
      apply hf
      rw [h.2]
      simp
  | cons x xs ih =>
    intro b f g hf hg h
    cases b with
    | nil =>
      simp at h
      exfalso
      apply hg
      rw [← h.2]
      simp
    | cons y ys =>
      simp only [List.cons_append, List.cons.injEq] at h
      obtain ⟨hb, hfg⟩ := ih hf hg h.2
      exact ⟨by rw [h.1, hb], hfg⟩

/-- Decomposition of the scratch filename into its underscore-separated parts. -/
theorem tempFilename_data (speaker : String) (q : ℚ) :
    (tempFilename speaker q).data =
      ("temp_".data ++ speaker.data) ++ '_' :: (fmt2Chars q ++ ".wav".data) := by
  have h1 : "_".data = ['_'] := rfl
  have h2 : ∀ l : List Char, (String.mk l).data = l := fun _ => rfl
  simp [tempFilename, formatFixed2, h1, h2, List.append_assoc]

/-- A nonempty input with a nonempty replacement never becomes empty. -/
theorem replaceAux_cons_ne_nil (old new : List Char) (hnew : new ≠ []) (fuel : Nat)
    (c : Char) (cs : List Char) : replaceAux old new (fuel + 1) (c :: cs) ≠ [] := by
  unfold replaceAux
  by_cases h : List.isPrefixOf old (c :: cs)
  · rw [if_pos h]
    simp [hnew]
  · rw [if_neg h]
    simp

/-- A path that passes the lowercased `.m4a` suffix test has length at least
four, hence is nonempty. -/
theorem endsM4aCI_data_ne_nil (s : String) (h : endsM4aCI s = true) : s.data ≠ [] := by
  unfold endsM4aCI at h
  have hs : ".m4a".data <:+ lowerData s := List.isSuffixOf_iff_suffix.mp h
  have hlen := hs.length_le
  intro hnil
  rw [lowerData, hnil] at hlen
  simp at hlen

/-- On inputs passing the `.m4a` test the derived WAV path is nonempty, hence
truthy in Python. -/
theorem pyReplace_wav_ne_empty (s : String) (h : endsM4aCI s = true) :
    pyReplace s ".m4a" ".wav" ≠ "" := by
  intro heq
  have hdata : replaceAux ".m4a".data ".wav".data (s.data.length + 1) s.data = [] :=
    congrArg String.data heq
  cases hd : s.data with
  | nil => exact endsM4aCI_data_ne_nil s h hd
  | cons c cs =>
    rw [hd] at hdata
    exact replaceAux_cons_ne_nil _ _ (by decide) _ c cs hdata

/-- C1: for every collection of diarized segments, in whatever order the
diarization model yields them, the segments rendered in the final transcript
of `transcribe_speaker_diarization` appear in non-decreasing start-time order:
the rendered list is sorted under `segLE` and the transcript is exactly its
rendering. -/
theorem C1_transcript_sorted_by_start (audioFile : String) (tracks : List Track)
    (oracle : String → String) (fs0 : Finset String) :
    List.Sorted segLE (transcribe_speaker_diarization audioFile tracks oracle fs0).segments ∧
      (transcribe_speaker_diarization audioFile tracks oracle fs0).transcript =
        renderTranscript (transcribe_speaker_diarization audioFile tracks oracle fs0).segments :=
  ⟨List.sorted_insertionSort segLE _, rfl⟩

/-- C2 (counterexample): two distinct diarized segments, sharing a speaker and
with start times 0.001 and 0.002, receive the same scratch filename, so the
claim that distinct segments always get distinct scratch filenames is false. -/
theorem C2_counterexample_same_filename :
    (⟨"A", 1 / 1000, 1⟩ : Track) ≠ (⟨"A", 2 / 1000, 1⟩ : Track) ∧
      tempFilename "A" (1 / 1000 : ℚ) = tempFilename "A" (2 / 1000 : ℚ) := by
  decide

/-- C2 (amended): scratch filenames of two diarized segments are distinct
provided the pairs (speaker label, start time formatted to two decimals)
differ; the name determines and is determined by that pair. -/
theorem C2_amended_filenames_distinct (t1 t2 : Track)
    (h : (t1.speaker, formatFixed2 t1.start) ≠ (t2.speaker, formatFixed2 t2.start)) :
    tempFilename t1.speaker t1.start ≠ tempFilename t2.speaker t2.start := by
  intro heq
  apply h
  have hdata := congrArg String.data heq
  rw [tempFilename_data, tempFilename_data] at hdata
  have hf1 : '_' ∉ fmt2Chars t1.start ++ ".wav".data := by
    intro hmem
    rcases List.mem_append.mp hmem with hx | hx
    · exact underscore_not_mem_fmt2Chars _ hx
    · exact absurd hx (by decide)
  have hf2 : '_' ∉ fmt2Chars t2.start ++ ".wav".data := by
    intro hmem
    rcases List.mem_append.mp hmem with hx | hx
    · exact underscore_not_mem_fmt2Chars _ hx
    · exact absurd hx (by decide)
  obtain ⟨hab, hfg⟩ := append_cons_underscore_inj _ hf1 hf2 hdata
  have hsp : t1.speaker = t2.speaker :=
    String.ext (List.append_inj_right hab rfl)
  have hfmt : formatFixed2 t1.start = formatFixed2 t2.start :=
    congrArg String.mk (List.append_inj' hfg rfl).1
  rw [hsp, hfmt]

/-- C2 (witness): the amended theorem applied at two concrete segments with
different speaker labels. -/
theorem C2_amended_filenames_distinct_witness :
    (("A", formatFixed2 (0 : ℚ)) ≠ ("B", formatFixed2 (0 : ℚ))) ∧
      tempFilename "A" (0 : ℚ) ≠ tempFilename "B" (0 : ℚ) :=
  ⟨by decide, C2_amended_filenames_distinct ⟨"A", 0, 0⟩ ⟨"B", 0, 0⟩ (by decide)⟩

/-- C3 (code bug): the input "AUDIO.M4A" passes the case-insensitive `.m4a`
test of line 20, yet the case-sensitive `replace` of line 22 leaves the name
unchanged: the "converted" path equals the input path with its original
extension, instead of carrying the same stem with a `.wav` extension, and
downstream processing continues on that unchanged path. -/
theorem C3_uppercase_extension_not_rewritten :
    endsM4aCI "AUDIO.M4A" = true ∧
      pyReplace "AUDIO.M4A" ".m4a" ".wav" = "AUDIO.M4A" ∧
      (transcribe_speaker_diarization "AUDIO.M4A" [] (fun _ => "") ∅).workFile =
        "AUDIO.M4A" := by
  decide

/-- C4: on every run, every scratch chunk file created during the per-segment
loop is absent from the final filesystem: no scratch file remains on disk
after a successful run. -/
theorem C4_all_scratch_files_deleted (audioFile : String) (tracks : List Track)
    (oracle : String → String) (fs0 : Finset String) (t : Track) (h : t ∈ tracks) :
    tempFilename t.speaker t.start ∉
      (transcribe_speaker_diarization audioFile tracks oracle fs0).fs :=
  fun hmem =>
    collectSegs_temp_not_mem oracle tracks _ t h
      (final_fs_subset audioFile tracks oracle fs0 hmem)

/-- C4 (witness): a concrete run with one diarized segment. -/
theorem C4_all_scratch_files_deleted_witness :
    ((⟨"S", 0, 1⟩ : Track) ∈ [(⟨"S", 0, 1⟩ : Track)]) ∧
      tempFilename "S" (0 : ℚ) ∉
        (transcribe_speaker_diarization "a.wav" [⟨"S", 0, 1⟩] (fun _ => "hi") ∅).fs :=
  ⟨by decide,
    C4_all_scratch_files_deleted "a.wav" [⟨"S", 0, 1⟩] (fun _ => "hi") ∅ ⟨"S", 0, 1⟩
      (by decide)⟩

/-- C5: for every input whose lowercased name ends in ".m4a", a successful run
records the converted waveform path, the converted file exists right after
normalization, and it is removed from disk before the function returns. -/
theorem C5_converted_wav_created_and_removed (audioFile : String) (tracks : List Track)
    (oracle : String → String) (fs0 : Finset String) (h : endsM4aCI audioFile = true) :
    (transcribe_speaker_diarization audioFile tracks oracle fs0).wavFile =
        some (pyReplace audioFile ".m4a" ".wav") ∧
      pyReplace audioFile ".m4a" ".wav" ∈ (normalize audioFile fs0).2.2 ∧
      pyReplace audioFile ".m4a" ".wav" ∉
        (transcribe_speaker_diarization audioFile tracks oracle fs0).fs := by
  have hn : normalize audioFile fs0 =
      (pyReplace audioFile ".m4a" ".wav", some (pyReplace audioFile ".m4a" ".wav"),
        insert (pyReplace audioFile ".m4a" ".wav") fs0) := by
    simp [normalize, h]
  refine ⟨?_, ?_, ?_⟩
  · show (normalize audioFile fs0).2.1 = _
    rw [hn]
  · rw [hn]
    exact Finset.mem_insert_self _ _
  · have hfs : (transcribe_speaker_diarization audioFile tracks oracle fs0).fs =
        (if pyReplace audioFile ".m4a" ".wav" ≠ "" ∧
            pyReplace audioFile ".m4a" ".wav" ∈
              (collectSegs oracle tracks
                (insert (pyReplace audioFile ".m4a" ".wav") fs0)).2 then
          ((collectSegs oracle tracks
              (insert (pyReplace audioFile ".m4a" ".wav") fs0)).2).erase
            (pyReplace audioFile ".m4a" ".wav")
        else
          (collectSegs oracle tracks
            (insert (pyReplace audioFile ".m4a" ".wav") fs0)).2) := by
      show (match (normalize audioFile fs0).2.1 with
        | some w =>
          if w ≠ "" ∧ w ∈ (collectSegs oracle tracks (normalize audioFile fs0).2.2).2 then
            ((collectSegs oracle tracks (normalize audioFile fs0).2.2).2).erase w
          else (collectSegs oracle tracks (normalize audioFile fs0).2.2).2
        | none => (collectSegs oracle tracks (normalize audioFile fs0).2.2).2) = _
      rw [hn]
    rw [hfs]
    by_cases hw : pyReplace audioFile ".m4a" ".wav" ∈
        (collectSegs oracle tracks (insert (pyReplace audioFile ".m4a" ".wav") fs0)).2
    · rw [if_pos ⟨pyReplace_wav_ne_empty audioFile h, hw⟩]
      exact Finset.not_mem_erase _ _
    · rw [if_neg (fun hc => hw hc.2)]
      exact hw

/-- C5 (witness): a concrete run on the input "a.m4a" with no segments. -/
theorem C5_converted_wav_created_and_removed_witness :
    endsM4aCI "a.m4a" = true ∧
      ((transcribe_speaker_diarization "a.m4a" [] (fun _ => "") ∅).wavFile =
          some (pyReplace "a.m4a" ".m4a" ".wav") ∧
        pyReplace "a.m4a" ".m4a" ".wav" ∈ (normalize "a.m4a" ∅).2.2 ∧
        pyReplace "a.m4a" ".m4a" ".wav" ∉
          (transcribe_speaker_diarization "a.m4a" [] (fun _ => "") ∅).fs) :=
  ⟨by decide, C5_converted_wav_created_and_removed "a.m4a" [] (fun _ => "") ∅ (by decide)⟩

/-- C6: on the two specified segments the Assembler renders exactly one
newline-terminated line per segment with times to two decimal places. -/
theorem C6_assembler_concrete_rendering :
    renderTranscript (sortSegments
        [⟨"A", 0, 2.5, "hello"⟩, ⟨"B", 2.5, 4, "world"⟩]) =
      "Speaker A (0.00s - 2.50s): hello\nSpeaker B (2.50s - 4.00s): world\n" := by
  decide

/-- C7: if the diarizer yields zero segments the returned transcript is the
empty string. -/
theorem C7_empty_diarization_empty_transcript (audioFile : String)
    (oracle : String → String) (fs0 : Finset String) :
    (transcribe_speaker_diarization audioFile [] oracle fs0).transcript = "" := rfl

/-- C8: with fewer than two positional arguments (sys.argv holds the program
name at index 0) the program prints the usage message and exits with code 1;
with two or more it proceeds into the pipeline with the two arguments. -/
theorem C8_usage_exit_on_missing_args (argv : List String) :
    ((argv.drop 1).length < 2 → mainDispatch argv = MainAction.exitWith usageMsg 1) ∧
      (2 ≤ (argv.drop 1).length →
        mainDispatch argv = MainAction.runPipeline (argv.getD 1 "") (argv.getD 2 "")) := by
  constructor
  · intro h
    have h3 : argv.length < 3 := by
      rw [List.length_drop] at h
      omega
    simp [mainDispatch, h3]
  · intro h
    have h3 : ¬argv.length < 3 := by
      rw [List.length_drop] at h
      omega
    simp [mainDispatch, h3]

/-- C8 (witness): concrete invocations with zero and with two positional
arguments. -/
theorem C8_usage_exit_on_missing_args_witness :
    mainDispatch ["prog"] = MainAction.exitWith usageMsg 1 ∧
      mainDispatch ["prog", "in.wav", "tok"] = MainAction.runPipeline "in.wav" "tok" :=
  ⟨(C8_usage_exit_on_missing_args ["prog"]).1 (by decide),
    (C8_usage_exit_on_missing_args ["prog", "in.wav", "tok"]).2 (by decide)⟩

/-- C9 (code bug): on the input "AUDIO.M4A" the derived WAV path equals the
input path, so the export overwrites the original file and the final cleanup
deletes it: after a successful run the caller's input file is gone. -/
theorem C9_original_input_deleted :
    "AUDIO.M4A" ∈ ({"AUDIO.M4A"} : Finset String) ∧
      "AUDIO.M4A" ∉
        (transcribe_speaker_diarization "AUDIO.M4A" [] (fun _ => "") {"AUDIO.M4A"}).fs := by
  decide

/-- C10: the sort of the Assembler is stable: for any fixed start time, the
subsequence of rendered segments carrying that start time is exactly the
subsequence of diarizer-order segments carrying it, in the same order. -/
theorem C10_sort_stable_on_ties (audioFile : String) (tracks : List Track)
    (oracle : String → String) (fs0 : Finset String) (t : ℚ) :
    (transcribe_speaker_diarization audioFile tracks oracle fs0).segments.filter
        (fun s => decide (s.start = t)) =
      (transcribe_speaker_diarization audioFile tracks oracle fs0).rawSegments.filter
        (fun s => decide (s.start = t)) :=
  filter_start_sortSegments _ t

end Trans
